import Mathlib

/-!
Shallow embedding of the Secure-Chat-Application core (src/rc4.rs, src/yak.rs,
src/session.rs, src/main.rs) and proofs of the specification claims.

Bytes are modelled as natural numbers; every operation that wraps in the
source (u8 arithmetic, 1024-bit multiplication) carries an explicit `% 256`
or `% 2 ^ 1024`.  I/O is modelled by passing the incoming byte stream as an
argument and returning the outgoing bytes as a result.
-/

set_option exponentiation.threshold 4200
set_option maxRecDepth 100000

namespace SecureChat

/-! ## RC4 stream cipher (src/rc4.rs) -/

/-- State of an `Rc4` instance: the 256-entry byte permutation and the two
cursor indices (`state`, `i`, `j` in the Rust struct). -/
structure Rc4 where
  state : List ℕ
  i : ℕ
  j : ℕ
deriving DecidableEq, Repr

/-- Swap of two positions of a list, as `<[u8]>::swap` does on the state. -/
def swapList (l : List ℕ) (a b : ℕ) : List ℕ :=
  (l.set a (l.getD b 0)).set b (l.getD a 0)

/-- `Rc4::new`: the all-zero state with both cursors at zero. -/
def Rc4.new : Rc4 :=
  ⟨List.replicate 256 0, 0, 0⟩

/-- `Rc4::next`: advance both cursors, swap, and emit one keystream byte. -/
def Rc4.next (c : Rc4) : ℕ × Rc4 :=
  let i := (c.i + 1) % 256
  let j := (c.j + c.state.getD i 0) % 256
  let st := swapList c.state i j
  let r := (st.getD i 0 + st.getD j 0) % 256
  (st.getD r 0, ⟨st, i, j⟩)

/-- `Rc4::process`: XOR each byte of the data with the next keystream byte,
returning the transformed data and the advanced cipher state. -/
def Rc4.process (c : Rc4) : List ℕ → List ℕ × Rc4
  | [] => ([], c)
  | b :: rest =>
    ((b ^^^ c.next.1) :: (c.next.2.process rest).1, (c.next.2.process rest).2)

/-- The first `n` keystream bytes produced by successive calls to `next`. -/
def Rc4.keystream (c : Rc4) : ℕ → List ℕ
  | 0 => []
  | n + 1 => c.next.1 :: c.next.2.keystream n

/-- `Rc4::initialize`: rebuild the identity permutation, run the key-scheduling
pass over the key, reset both cursors, then discard 3072 keystream bytes.
The previous state is entirely overwritten, so the receiver is unused. -/
def Rc4.initialize (_self : Rc4) (key : List ℕ) : Rc4 :=
  let scheduled :=
    (List.range 256).foldl
      (fun (acc : List ℕ × ℕ) i =>
        let j1 := (acc.2 + acc.1.getD i 0) % 256
        let j2 := (j1 + key.getD (i % key.length) 0) % 256
        (swapList acc.1 i j2, j2))
      (List.range 256, 0)
  let reset : Rc4 := ⟨scheduled.1, 0, 0⟩
  (fun c => (Rc4.next c).2)^[3072] reset

/-! ### RC4 lemmas -/

theorem Rc4.process_nil (c : Rc4) : c.process [] = ([], c) := rfl

theorem Rc4.process_cons (c : Rc4) (b : ℕ) (rest : List ℕ) :
    c.process (b :: rest) =
      ((b ^^^ c.next.1) :: (c.next.2.process rest).1, (c.next.2.process rest).2) := rfl

/-- Processing twice from the same starting state restores the data:
the keystream depends only on the state, and XOR is self-inverse. -/
theorem Rc4.process_process (msg : List ℕ) :
    ∀ c : Rc4, (c.process (c.process msg).1).1 = msg := by
  induction msg with
  | nil => intro c; rfl
  | cons b rest ih =>
    intro c
    rw [Rc4.process_cons, Rc4.process_cons]
    simp only [Nat.xor_assoc, Nat.xor_self, Nat.xor_zero]
    exact congrArg (b :: ·) (ih c.next.2)

/-! ## Key exchange (src/yak.rs) -/

/-- Wrap-around bound of the 16-limb `U1024` type: `overflowing_mul` reduces
every product modulo `2 ^ 1024`. -/
def u1024Mod : ℕ := 2 ^ 1024

/-- Shared prime modulus (`LARGE_SHARED_PRIME` in src/yak.rs). -/
def LARGE_SHARED_PRIME : ℕ :=
  2666059058123518101548143651795902542003950378111894701790280012124011918017464857102059640892783997

/-- Loop of `modular_exponentiation`: square-and-multiply over the low bit of
the exponent, with every product wrapped modulo `2 ^ 1024` (the
`overflowing_mul` of `U1024`) and then reduced modulo the modulus. -/
def modExpLoop (modulus result base exponent : ℕ) : ℕ :=
  if h : exponent = 0 then result
  else
    modExpLoop modulus
      (if exponent % 2 = 1 then result * base % u1024Mod % modulus else result)
      (base * base % u1024Mod % modulus)
      (exponent / 2)
termination_by exponent
decreasing_by exact Nat.div_lt_self (Nat.pos_of_ne_zero h) one_lt_two

/-- `modular_exponentiation` from src/yak.rs. -/
def modular_exponentiation (base exponent modulus : ℕ) : ℕ :=
  modExpLoop modulus 1 base exponent

/-- `fixed_exponentiation`: exponentiation modulo the shared prime. -/
def fixed_exponentiation (base exponent : ℕ) : ℕ :=
  modular_exponentiation base exponent LARGE_SHARED_PRIME

/-- State of a `Yak` instance: long-term key and current session key.  The
thread-local RNG is modelled by passing each drawn random value as an
argument. -/
structure Yak where
  key : ℕ
  session : ℕ
deriving DecidableEq, Repr

/-- `Yak::new` with the randomly drawn long-term key passed explicitly;
the session key starts at zero. -/
def Yak.new (key : ℕ) : Yak :=
  ⟨key, 0⟩

/-- `Yak::start_session`: draw an ephemeral key (the random draw `r` is passed
in, reduced modulo the shared prime) and return the public value
`2 ^ (key + session) mod p` together with the updated state. -/
def Yak.start_session (y : Yak) (r : ℕ) : Yak × ℕ :=
  let y' : Yak := { y with session := r % LARGE_SHARED_PRIME }
  (y', fixed_exponentiation 2 (y'.key + y'.session))

/-- `Yak::compute_shared`: raise the peer's public value to the local
combined exponent modulo the shared prime. -/
def Yak.compute_shared (y : Yak) (key : ℕ) : ℕ :=
  fixed_exponentiation key (y.key + y.session)

/-! ### Modular-exponentiation lemmas -/

theorem LARGE_SHARED_PRIME_one_lt : 1 < LARGE_SHARED_PRIME := by
  norm_num [LARGE_SHARED_PRIME]

theorem LARGE_SHARED_PRIME_le : LARGE_SHARED_PRIME ≤ 2 ^ 512 := by
  norm_num [LARGE_SHARED_PRIME]

/-- As long as all operands stay below `2 ^ 512`, the wrap at `2 ^ 1024` never
fires and the loop computes `result * base ^ exponent mod modulus`. -/
theorem modExpLoop_spec (m : ℕ) (hm1 : 1 < m) (hm : m ≤ 2 ^ 512) :
    ∀ e r b, r < m → b < 2 ^ 512 → modExpLoop m r b e = r * b ^ e % m := by
  intro e
  induction e using Nat.strong_induction_on with
  | _ e ih =>
    intro r b hr hb
    rw [modExpLoop]
    by_cases he : e = 0
    · subst he
      simp [Nat.mod_eq_of_lt hr]
    · simp only [dif_neg he]
      have hr512 : r < 2 ^ 512 := lt_of_lt_of_le hr hm
      have hm0 : 0 < m := lt_trans one_pos hm1
      have hrb : r * b < u1024Mod := by
        have : r * b < 2 ^ 512 * 2 ^ 512 :=
          Nat.mul_lt_mul_of_lt_of_le hr512 (le_of_lt hb) (by positivity)
        simpa [u1024Mod, ← pow_add] using this
      have hbb : b * b < u1024Mod := by
        have : b * b < 2 ^ 512 * 2 ^ 512 :=
          Nat.mul_lt_mul_of_lt_of_le hb (le_of_lt hb) (by positivity)
        simpa [u1024Mod, ← pow_add] using this
      have hb' : b * b % u1024Mod % m < m := Nat.mod_lt _ hm0
      have hr' : (if e % 2 = 1 then r * b % u1024Mod % m else r) < m := by
        split
        · exact Nat.mod_lt _ hm0
        · exact hr
      have := ih (e / 2) (Nat.div_lt_self (Nat.pos_of_ne_zero he) one_lt_two)
        (if e % 2 = 1 then r * b % u1024Mod % m else r)
        (b * b % u1024Mod % m) hr' (lt_of_lt_of_le hb' hm)
      rw [this, Nat.mod_eq_of_lt hrb, Nat.mod_eq_of_lt hbb]
      have hmod : (if e % 2 = 1 then r * b % m else r) * (b * b % m) ^ (e / 2)
          ≡ r * b ^ (e % 2) * (b * b) ^ (e / 2) [MOD m] := by
        apply Nat.ModEq.mul
        · split
          · next hodd =>
              rw [hodd, pow_one]
              exact Nat.mod_modEq _ _
          · next hev =>
              have : e % 2 = 0 := by omega
              rw [this, pow_zero, mul_one]
        · exact Nat.ModEq.pow _ (Nat.mod_modEq _ _)
      have hpow : r * b ^ (e % 2) * (b * b) ^ (e / 2) = r * b ^ e := by
        rw [← pow_two, ← pow_mul, mul_assoc, ← pow_add]
        congr 2
        omega
      calc (if e % 2 = 1 then r * b % m else r) * (b * b % m) ^ (e / 2) % m
          = r * b ^ (e % 2) * (b * b) ^ (e / 2) % m := hmod
        _ = r * b ^ e % m := by rw [hpow]

/-- Helper form of C6: under the no-overflow side conditions the Rust loop
computes genuine modular exponentiation. -/
theorem modular_exponentiation_spec (base e m : ℕ) (hb : base < 2 ^ 512)
    (hm1 : 1 < m) (hm : m ≤ 2 ^ 512) :
    modular_exponentiation base e m = base ^ e % m := by
  rw [modular_exponentiation, modExpLoop_spec m hm1 hm e 1 base hm1 hb, one_mul]

theorem fixed_exponentiation_spec (base e : ℕ) (hb : base < 2 ^ 512) :
    fixed_exponentiation base e = base ^ e % LARGE_SHARED_PRIME :=
  modular_exponentiation_spec base e _ hb LARGE_SHARED_PRIME_one_lt LARGE_SHARED_PRIME_le

/-- C1: Diffie-Hellman symmetry.  For any two `Yak` instances `A` and `B`
with arbitrary long-term keys, after each calls `start_session` once (with
arbitrary random draws `rA`, `rB`), `A`'s shared secret computed from `B`'s
public value equals `B`'s shared secret computed from `A`'s public value. -/
theorem yak_symmetry (A B : Yak) (rA rB : ℕ) :
    (A.start_session rA).1.compute_shared (B.start_session rB).2
      = (B.start_session rB).1.compute_shared (A.start_session rA).2 := by
  have hp1 : 1 < LARGE_SHARED_PRIME := LARGE_SHARED_PRIME_one_lt
  have hp0 : 0 < LARGE_SHARED_PRIME := lt_trans one_pos hp1
  have h2 : (2 : ℕ) < 2 ^ 512 := by norm_num
  have key_lt : ∀ e : ℕ, fixed_exponentiation 2 e < 2 ^ 512 := by
    intro e
    rw [fixed_exponentiation_spec 2 e h2]
    exact lt_of_lt_of_le (Nat.mod_lt _ hp0) LARGE_SHARED_PRIME_le
  have main : ∀ eA eB : ℕ,
      fixed_exponentiation (fixed_exponentiation 2 eB) eA
        = fixed_exponentiation (fixed_exponentiation 2 eA) eB := by
    intro eA eB
    rw [fixed_exponentiation_spec _ eA (key_lt eB),
      fixed_exponentiation_spec _ eB (key_lt eA),
      fixed_exponentiation_spec 2 eA h2, fixed_exponentiation_spec 2 eB h2,
      ← Nat.pow_mod, ← Nat.pow_mod, ← pow_mul, ← pow_mul, Nat.mul_comm]
  exact main _ _

/-- Witness data for the C6 counterexample: with a base of `2 ^ 512` the very
first squaring wraps at `2 ^ 1024`, so the loop returns 0 while real modular
exponentiation gives `2 ^ 511`. -/
theorem modular_exponentiation_overflow_eval :
    modular_exponentiation (2 ^ 512) 2 (2 ^ 513 - 1) = 0 := by
  rw [modular_exponentiation, modExpLoop]
  norm_num [u1024Mod]
  rw [modExpLoop]
  norm_num [u1024Mod]
  rw [modExpLoop]
  norm_num

/-- C6 counterexample: `modular_exponentiation` does not return
`base ^ exponent % modulus` for every base and nonzero modulus — at base
`2 ^ 512`, exponent 2, modulus `2 ^ 513 - 1` the wrap at `2 ^ 1024` loses the
high bits. -/
theorem modular_exponentiation_not_correct :
    modular_exponentiation (2 ^ 512) 2 (2 ^ 513 - 1)
      ≠ (2 ^ 512) ^ 2 % (2 ^ 513 - 1) := by
  rw [modular_exponentiation_overflow_eval]
  norm_num

/-- C6 (amended): for every exponent, every base below `2 ^ 512`, and every
modulus `m` with `1 < m ≤ 2 ^ 512`, the square-and-multiply loop (scanning
exponent bits least-significant first and reducing every product modulo the
modulus immediately) returns `base ^ exponent % m`; under these bounds no
intermediate product exceeds the 1024-bit width. -/
theorem modular_exponentiation_correct (base e m : ℕ) (hb : base < 2 ^ 512)
    (hm1 : 1 < m) (hm : m ≤ 2 ^ 512) :
    modular_exponentiation base e m = base ^ e % m :=
  modular_exponentiation_spec base e m hb hm1 hm

/-- Witness for the amended C6 at base 3, exponent 5, modulus 7. -/
theorem modular_exponentiation_correct_witness :
    (3 : ℕ) < 2 ^ 512 ∧ (1 : ℕ) < 7 ∧ (7 : ℕ) ≤ 2 ^ 512 ∧
      modular_exponentiation 3 5 7 = 3 ^ 5 % 7 :=
  ⟨by norm_num, by norm_num, by norm_num,
    modular_exponentiation_correct 3 5 7 (by norm_num) (by norm_num) (by norm_num)⟩

/-! ### Primality of the shared modulus

The constant is certified prime through Lucas certificates (Pratt tree).
`powModFuel` is a fuel-based modular exponentiation the kernel can evaluate. -/

/-- Fuel-based square-and-multiply modular exponentiation, used only to let
`decide` evaluate the large powers appearing in the primality certificates. -/
def powModFuel (m : ℕ) : ℕ → ℕ → ℕ → ℕ
  | 0, _, _ => 1 % m
  | fuel + 1, b, e =>
    if e = 0 then 1 % m
    else
      let r := powModFuel m fuel (b * b % m) (e / 2)
      if e % 2 = 1 then r * b % m else r

theorem powModFuel_spec (m : ℕ) :
    ∀ fuel b e, e < 2 ^ fuel → powModFuel m fuel b e = b ^ e % m := by
  intro fuel
  induction fuel with
  | zero =>
    intro b e he
    have : e = 0 := by simpa using Nat.lt_one_iff.mp (by simpa using he)
    subst this
    simp [powModFuel]
  | succ fuel ih =>
    intro b e he
    by_cases h0 : e = 0
    · subst h0
      simp [powModFuel]
    · have hdiv : e / 2 < 2 ^ fuel := by
        have h2 : 2 ^ (fuel + 1) = 2 * 2 ^ fuel := by ring
        omega
      have hrec := ih (b * b % m) (e / 2) hdiv
      simp only [powModFuel, if_neg h0, hrec]
      have hbase : ((b * b % m) ^ (e / 2)) % m = (b * b) ^ (e / 2) % m :=
        (Nat.pow_mod _ _ _).symm
      have hsplit : (b * b) ^ (e / 2) * b ^ (e % 2) = b ^ e := by
        rw [← pow_two, ← pow_mul, ← pow_add]
        congr 1
        omega
      by_cases hodd : e % 2 = 1
      · rw [if_pos hodd]
        calc (b * b % m) ^ (e / 2) % m * b % m
            = (b * b) ^ (e / 2) % m * b % m := by rw [hbase]
          _ = (b * b) ^ (e / 2) * b % m := by
              rw [Nat.mod_mul_mod]
          _ = b ^ e % m := by rw [← hsplit, hodd, pow_one]
      · rw [if_neg hodd]
        have he2 : e % 2 = 0 := by omega
        calc (b * b % m) ^ (e / 2) % m
            = (b * b) ^ (e / 2) % m := hbase
          _ = b ^ e % m := by rw [← hsplit, he2, pow_zero, mul_one]

/-- Generic Lucas certificate checker: `a` has maximal order modulo `p`, shown
through the kernel-computable `powModFuel`, with `L` a full prime
factorisation of `p - 1` and `D` covering the distinct factors. -/
theorem prime_of_pratt (p a fuel : ℕ) (L D : List ℕ)
    (hp : 1 < p)
    (hL : ∀ q ∈ L, Nat.Prime q)
    (hprod : L.prod = p - 1)
    (hsub : ∀ q ∈ L, q ∈ D)
    (hfuel : p - 1 < 2 ^ fuel)
    (ha : powModFuel p fuel a (p - 1) = 1)
    (hne : ∀ q ∈ D, powModFuel p fuel a ((p - 1) / q) ≠ 1) :
    Nat.Prime p := by
  have hp0 : 0 < p := lt_trans one_pos hp
  have hpow : ∀ e, e ≤ p - 1 → powModFuel p fuel a e = a ^ e % p := fun e hle =>
    powModFuel_spec p fuel a e (lt_of_le_of_lt hle hfuel)
  apply lucas_primality p (a : ℕ)
  · have h1 : a ^ (p - 1) % p = 1 % p := by
      rw [← hpow _ le_rfl, ha, Nat.mod_eq_of_lt hp]
    have : ((a ^ (p - 1) : ℕ) : ZMod p) = ((1 : ℕ) : ZMod p) :=
      (ZMod.natCast_eq_natCast_iff' _ _ _).2 h1
    simpa using this
  · intro q hq hdvd
    have hmem : q ∈ L := by
      obtain ⟨b, hbL, hqb⟩ := (hq.prime.dvd_prod_iff).1 (hprod ▸ hdvd)
      exact (Nat.prime_dvd_prime_iff_eq hq (hL b hbL)).1 hqb ▸ hbL
    have hne' := hne q (hsub q hmem)
    rw [hpow _ (Nat.div_le_self _ _)] at hne'
    intro hcontra
    apply hne'
    have : ((a ^ ((p - 1) / q) : ℕ) : ZMod p) = ((1 : ℕ) : ZMod p) := by
      simpa using hcontra
    have hmod := (ZMod.natCast_eq_natCast_iff' _ _ _).1 this
    rwa [Nat.mod_eq_of_lt hp] at hmod

/-- Pratt certificate node: 111439 is prime (Lucas witness 15). -/
theorem prattPrime_111439 : Nat.Prime 111439 := by
  apply prime_of_pratt 111439 15 19 [2, 3, 3, 41, 151] [2, 3, 41, 151]
  · decide
  · intro q hq
    simp only [List.mem_cons, List.not_mem_nil, or_false] at hq
    rcases hq with rfl | rfl | rfl | rfl | rfl
    exacts [by norm_num, by norm_num, by norm_num, by norm_num, by norm_num]
  · decide
  · decide
  · decide
  · decide
  · decide

/-- Pratt certificate node: 572449 is prime (Lucas witness 7). -/
theorem prattPrime_572449 : Nat.Prime 572449 := by
  apply prime_of_pratt 572449 7 22 [2, 2, 2, 2, 2, 3, 67, 89] [2, 3, 67, 89]
  · decide
  · intro q hq
    simp only [List.mem_cons, List.not_mem_nil, or_false] at hq
    rcases hq with rfl | rfl | rfl | rfl | rfl | rfl | rfl | rfl
    exacts [by norm_num, by norm_num, by norm_num, by norm_num, by norm_num, by norm_num, by norm_num, by norm_num]
  · decide
  · decide
  · decide
  · decide
  · decide

/-- Pratt certificate node: 2265469 is prime (Lucas witness 2). -/
theorem prattPrime_2265469 : Nat.Prime 2265469 := by
  apply prime_of_pratt 2265469 2 24 [2, 2, 3, 71, 2659] [2, 3, 71, 2659]
  · decide
  · intro q hq
    simp only [List.mem_cons, List.not_mem_nil, or_false] at hq
    rcases hq with rfl | rfl | rfl | rfl | rfl
    exacts [by norm_num, by norm_num, by norm_num, by norm_num, by norm_num]
  · decide
  · decide
  · decide
  · decide
  · decide

/-- Pratt certificate node: 6463463 is prime (Lucas witness 5). -/
theorem prattPrime_6463463 : Nat.Prime 6463463 := by
  apply prime_of_pratt 6463463 5 25 [2, 29, 111439] [2, 29, 111439]
  · decide
  · intro q hq
    simp only [List.mem_cons, List.not_mem_nil, or_false] at hq
    rcases hq with rfl | rfl | rfl
    exacts [by norm_num, by norm_num, prattPrime_111439]
  · decide
  · decide
  · decide
  · decide
  · decide

/-- Pratt certificate node: 6869389 is prime (Lucas witness 13). -/
theorem prattPrime_6869389 : Nat.Prime 6869389 := by
  apply prime_of_pratt 6869389 13 25 [2, 2, 3, 572449] [2, 3, 572449]
  · decide
  · intro q hq
    simp only [List.mem_cons, List.not_mem_nil, or_false] at hq
    rcases hq with rfl | rfl | rfl | rfl
    exacts [by norm_num, by norm_num, by norm_num, prattPrime_572449]
  · decide
  · decide
  · decide
  · decide
  · decide

/-- Pratt certificate node: 61660639 is prime (Lucas witness 6). -/
theorem prattPrime_61660639 : Nat.Prime 61660639 := by
  apply prime_of_pratt 61660639 6 28 [2, 3, 3, 13, 41, 6427] [2, 3, 13, 41, 6427]
  · decide
  · intro q hq
    simp only [List.mem_cons, List.not_mem_nil, or_false] at hq
    rcases hq with rfl | rfl | rfl | rfl | rfl | rfl
    exacts [by norm_num, by norm_num, by norm_num, by norm_num, by norm_num, by norm_num]
  · decide
  · decide
  · decide
  · decide
  · decide

/-- Pratt certificate node: 417217547 is prime (Lucas witness 2). -/
theorem prattPrime_417217547 : Nat.Prime 417217547 := by
  apply prime_of_pratt 417217547 2 31 [2, 11311, 18443] [2, 11311, 18443]
  · decide
  · intro q hq
    simp only [List.mem_cons, List.not_mem_nil, or_false] at hq
    rcases hq with rfl | rfl | rfl
    exacts [by norm_num, by norm_num, by norm_num]
  · decide
  · decide
  · decide
  · decide
  · decide

/-- Pratt certificate node: 3383436733 is prime (Lucas witness 2). -/
theorem prattPrime_3383436733 : Nat.Prime 3383436733 := by
  apply prime_of_pratt 3383436733 2 34 [2, 2, 3, 13, 37, 419, 1399] [2, 3, 13, 37, 419, 1399]
  · decide
  · intro q hq
    simp only [List.mem_cons, List.not_mem_nil, or_false] at hq
    rcases hq with rfl | rfl | rfl | rfl | rfl | rfl | rfl
    exacts [by norm_num, by norm_num, by norm_num, by norm_num, by norm_num, by norm_num, by norm_num]
  · decide
  · decide
  · decide
  · decide
  · decide

/-- Pratt certificate node: 19440370871 is prime (Lucas witness 11). -/
theorem prattPrime_19440370871 : Nat.Prime 19440370871 := by
  apply prime_of_pratt 19440370871 11 37 [2, 5, 283, 6869389] [2, 5, 283, 6869389]
  · decide
  · intro q hq
    simp only [List.mem_cons, List.not_mem_nil, or_false] at hq
    rcases hq with rfl | rfl | rfl | rfl
    exacts [by norm_num, by norm_num, by norm_num, prattPrime_6869389]
  · decide
  · decide
  · decide
  · decide
  · decide

/-- Pratt certificate node: 38880741743 is prime (Lucas witness 5). -/
theorem prattPrime_38880741743 : Nat.Prime 38880741743 := by
  apply prime_of_pratt 38880741743 5 38 [2, 19440370871] [2, 19440370871]
  · decide
  · intro q hq
    simp only [List.mem_cons, List.not_mem_nil, or_false] at hq
    rcases hq with rfl | rfl
    exacts [by norm_num, prattPrime_19440370871]
  · decide
  · decide
  · decide
  · decide
  · decide

/-- Pratt certificate node: 223306824379 is prime (Lucas witness 11). -/
theorem prattPrime_223306824379 : Nat.Prime 223306824379 := by
  apply prime_of_pratt 223306824379 11 40 [2, 3, 11, 3383436733] [2, 3, 11, 3383436733]
  · decide
  · intro q hq
    simp only [List.mem_cons, List.not_mem_nil, or_false] at hq
    rcases hq with rfl | rfl | rfl | rfl
    exacts [by norm_num, by norm_num, by norm_num, prattPrime_3383436733]
  · decide
  · decide
  · decide
  · decide
  · decide

/-- Pratt certificate node: 667106943157 is prime (Lucas witness 2). -/
theorem prattPrime_667106943157 : Nat.Prime 667106943157 := by
  apply prime_of_pratt 667106943157 2 42 [2, 2, 3, 3, 47, 61, 6463463] [2, 3, 47, 61, 6463463]
  · decide
  · intro q hq
    simp only [List.mem_cons, List.not_mem_nil, or_false] at hq
    rcases hq with rfl | rfl | rfl | rfl | rfl | rfl | rfl
    exacts [by norm_num, by norm_num, by norm_num, by norm_num, by norm_num, by norm_num, prattPrime_6463463]
  · decide
  · decide
  · decide
  · decide
  · decide

/-- Pratt certificate node: 4019522838823 is prime (Lucas witness 3). -/
theorem prattPrime_4019522838823 : Nat.Prime 4019522838823 := by
  apply prime_of_pratt 4019522838823 3 44 [2, 3, 3, 223306824379] [2, 3, 223306824379]
  · decide
  · intro q hq
    simp only [List.mem_cons, List.not_mem_nil, or_false] at hq
    rcases hq with rfl | rfl | rfl | rfl
    exacts [by norm_num, by norm_num, by norm_num, prattPrime_223306824379]
  · decide
  · decide
  · decide
  · decide
  · decide

/-- Pratt certificate node: 1808785277470351 is prime (Lucas witness 3). -/
theorem prattPrime_1808785277470351 : Nat.Prime 1808785277470351 := by
  apply prime_of_pratt 1808785277470351 3 53 [2, 3, 3, 5, 5, 4019522838823] [2, 3, 5, 4019522838823]
  · decide
  · intro q hq
    simp only [List.mem_cons, List.not_mem_nil, or_false] at hq
    rcases hq with rfl | rfl | rfl | rfl | rfl | rfl
    exacts [by norm_num, by norm_num, by norm_num, by norm_num, by norm_num, prattPrime_4019522838823]
  · decide
  · decide
  · decide
  · decide
  · decide

/-- Pratt certificate node: 264337123584302309 is prime (Lucas witness 2). -/
theorem prattPrime_264337123584302309 : Nat.Prime 264337123584302309 := by
  apply prime_of_pratt 264337123584302309 2 60 [2, 2, 23, 59, 73, 667106943157] [2, 23, 59, 73, 667106943157]
  · decide
  · intro q hq
    simp only [List.mem_cons, List.not_mem_nil, or_false] at hq
    rcases hq with rfl | rfl | rfl | rfl | rfl | rfl
    exacts [by norm_num, by norm_num, by norm_num, by norm_num, by norm_num, prattPrime_667106943157]
  · decide
  · decide
  · decide
  · decide
  · decide

/-- Pratt certificate node: 637711427257516104683 is prime (Lucas witness 2). -/
theorem prattPrime_637711427257516104683 : Nat.Prime 637711427257516104683 := by
  apply prime_of_pratt 637711427257516104683 2 72 [2, 7, 19, 61660639, 38880741743] [2, 7, 19, 61660639, 38880741743]
  · decide
  · intro q hq
    simp only [List.mem_cons, List.not_mem_nil, or_false] at hq
    rcases hq with rfl | rfl | rfl | rfl | rfl
    exacts [by norm_num, by norm_num, by norm_num, prattPrime_61660639, prattPrime_38880741743]
  · decide
  · decide
  · decide
  · decide
  · decide

/-- Pratt certificate node: 1009717989045191924897132593 is prime (Lucas witness 5). -/
theorem prattPrime_q90 : Nat.Prime 1009717989045191924897132593 := by
  apply prime_of_pratt 1009717989045191924897132593 5 92 [2, 2, 2, 2, 3, 571, 14563, 65293, 92863, 417217547] [2, 3, 571, 14563, 65293, 92863, 417217547]
  · decide
  · intro q hq
    simp only [List.mem_cons, List.not_mem_nil, or_false] at hq
    rcases hq with rfl | rfl | rfl | rfl | rfl | rfl | rfl | rfl | rfl | rfl
    exacts [by norm_num, by norm_num, by norm_num, by norm_num, by norm_num, by norm_num, by norm_num, by norm_num, by norm_num, prattPrime_417217547]
  · decide
  · decide
  · decide
  · decide
  · decide

/-- Pratt certificate node: 14412921238198733553796452173029751430729090799 is prime (Lucas witness 6). -/
theorem prattPrime_q154 : Nat.Prime 14412921238198733553796452173029751430729090799 := by
  apply prime_of_pratt 14412921238198733553796452173029751430729090799 6 156 [2, 3, 3, 3, 264337123584302309, 1009717989045191924897132593] [2, 3, 264337123584302309, 1009717989045191924897132593]
  · decide
  · intro q hq
    simp only [List.mem_cons, List.not_mem_nil, or_false] at hq
    rcases hq with rfl | rfl | rfl | rfl | rfl | rfl
    exacts [by norm_num, by norm_num, by norm_num, by norm_num, prattPrime_264337123584302309, prattPrime_q90]
  · decide
  · decide
  · decide
  · decide
  · decide

/-- Pratt certificate node: 260698797409936111694609226711725859469091814280222249094004491 is prime (Lucas witness 2). -/
theorem prattPrime_q208 : Nat.Prime 260698797409936111694609226711725859469091814280222249094004491 := by
  apply prime_of_pratt 260698797409936111694609226711725859469091814280222249094004491 2 210 [2, 5, 1808785277470351, 14412921238198733553796452173029751430729090799] [2, 5, 1808785277470351, 14412921238198733553796452173029751430729090799]
  · decide
  · intro q hq
    simp only [List.mem_cons, List.not_mem_nil, or_false] at hq
    rcases hq with rfl | rfl | rfl | rfl
    exacts [by norm_num, by norm_num, prattPrime_1808785277470351, prattPrime_q154]
  · decide
  · decide
  · decide
  · decide
  · decide

/-- Pratt certificate node: 1157438234723234111290106184982040920688363172284126203923572523718651520251 is prime (Lucas witness 2). -/
theorem prattPrime_q250 : Nat.Prime 1157438234723234111290106184982040920688363172284126203923572523718651520251 := by
  apply prime_of_pratt 1157438234723234111290106184982040920688363172284126203923572523718651520251 2 252 [2, 3, 3, 5, 5, 5, 13, 67, 2265469, 260698797409936111694609226711725859469091814280222249094004491] [2, 3, 5, 13, 67, 2265469, 260698797409936111694609226711725859469091814280222249094004491]
  · decide
  · intro q hq
    simp only [List.mem_cons, List.not_mem_nil, or_false] at hq
    rcases hq with rfl | rfl | rfl | rfl | rfl | rfl | rfl | rfl | rfl | rfl
    exacts [by norm_num, by norm_num, by norm_num, by norm_num, by norm_num, by norm_num, by norm_num, by norm_num, prattPrime_2265469, prattPrime_q208]
  · decide
  · decide
  · decide
  · decide
  · decide

/-- Pratt certificate node: 2666059058123518101548143651795902542003950378111894701790280012124011918017464857102059640892783997 is prime (Lucas witness 2). -/
theorem LARGE_SHARED_PRIME_prime_aux : Nat.Prime 2666059058123518101548143651795902542003950378111894701790280012124011918017464857102059640892783997 := by
  apply prime_of_pratt 2666059058123518101548143651795902542003950378111894701790280012124011918017464857102059640892783997 2 333 [2, 2, 3, 7, 43, 637711427257516104683, 1157438234723234111290106184982040920688363172284126203923572523718651520251] [2, 3, 7, 43, 637711427257516104683, 1157438234723234111290106184982040920688363172284126203923572523718651520251]
  · decide
  · intro q hq
    simp only [List.mem_cons, List.not_mem_nil, or_false] at hq
    rcases hq with rfl | rfl | rfl | rfl | rfl | rfl | rfl
    exacts [by norm_num, by norm_num, by norm_num, by norm_num, by norm_num, prattPrime_637711427257516104683, prattPrime_q250]
  · decide
  · decide
  · decide
  · decide
  · decide

/-- C2 counterexample: the fixed shared modulus is not a 1024-bit prime;
its value is far below `2 ^ 1023`, so its bit length is not 1024. -/
theorem LARGE_SHARED_PRIME_not_1024_bit :
    ¬ (Nat.Prime LARGE_SHARED_PRIME ∧
        2 ^ 1023 ≤ LARGE_SHARED_PRIME ∧ LARGE_SHARED_PRIME < 2 ^ 1024) := by
  intro h
  have hle := h.2.1
  norm_num [LARGE_SHARED_PRIME] at hle

/-- C2 (amended): the fixed shared modulus `LARGE_SHARED_PRIME` is a prime
number and its bit length is 331, i.e. `2 ^ 330 ≤ p < 2 ^ 331`. -/
theorem LARGE_SHARED_PRIME_is_prime_331_bit :
    Nat.Prime LARGE_SHARED_PRIME ∧
      2 ^ 330 ≤ LARGE_SHARED_PRIME ∧ LARGE_SHARED_PRIME < 2 ^ 331 :=
  ⟨by rw [LARGE_SHARED_PRIME]; exact LARGE_SHARED_PRIME_prime_aux,
    by norm_num [LARGE_SHARED_PRIME], by norm_num [LARGE_SHARED_PRIME]⟩

/-! ## Packet codec (src/session.rs) -/

/-- Little-endian byte dump of a natural number into exactly `n` bytes. -/
def toLEBytes : ℕ → ℕ → List ℕ
  | 0, _ => []
  | n + 1, v => v % 256 :: toLEBytes n (v / 256)

/-- Little-endian byte decoding of a byte list into a natural number. -/
def fromLEBytes : List ℕ → ℕ
  | [] => 0
  | b :: rest => b + 256 * fromLEBytes rest

/-- `key_to_bytes`: 128-byte little-endian dump of a `U1024` key. -/
def key_to_bytes (key : ℕ) : List ℕ :=
  toLEBytes 128 key

/-- `std::mem::size_of::<usize>()` on the 64-bit target the program runs on. -/
def USIZE_LEN : ℕ := 8

/-- Whether a byte is a UTF-8 continuation byte (`0x80 ..= 0xBF`). -/
def isUtf8Cont (b : ℕ) : Bool :=
  decide (0x80 ≤ b ∧ b ≤ 0xBF)

/-- Well-formedness of a byte sequence as UTF-8, as `String::from_utf8`
checks it (RFC 3629: no overlong forms, no surrogates, max U+10FFFF). -/
def validUtf8 : List ℕ → Bool
  | [] => true
  | b :: rest =>
    if b ≤ 0x7F then validUtf8 rest
    else if 0xC2 ≤ b ∧ b ≤ 0xDF then
      match rest with
      | c1 :: r => isUtf8Cont c1 && validUtf8 r
      | [] => false
    else if b = 0xE0 then
      match rest with
      | c1 :: c2 :: r => decide (0xA0 ≤ c1 ∧ c1 ≤ 0xBF) && isUtf8Cont c2 && validUtf8 r
      | _ => false
    else if (0xE1 ≤ b ∧ b ≤ 0xEC) ∨ (0xEE ≤ b ∧ b ≤ 0xEF) then
      match rest with
      | c1 :: c2 :: r => isUtf8Cont c1 && isUtf8Cont c2 && validUtf8 r
      | _ => false
    else if b = 0xED then
      match rest with
      | c1 :: c2 :: r => decide (0x80 ≤ c1 ∧ c1 ≤ 0x9F) && isUtf8Cont c2 && validUtf8 r
      | _ => false
    else if b = 0xF0 then
      match rest with
      | c1 :: c2 :: c3 :: r =>
        decide (0x90 ≤ c1 ∧ c1 ≤ 0xBF) && isUtf8Cont c2 && isUtf8Cont c3 && validUtf8 r
      | _ => false
    else if 0xF1 ≤ b ∧ b ≤ 0xF3 then
      match rest with
      | c1 :: c2 :: c3 :: r => isUtf8Cont c1 && isUtf8Cont c2 && isUtf8Cont c3 && validUtf8 r
      | _ => false
    else if b = 0xF4 then
      match rest with
      | c1 :: c2 :: c3 :: r =>
        decide (0x80 ≤ c1 ∧ c1 ≤ 0x8F) && isUtf8Cont c2 && isUtf8Cont c3 && validUtf8 r
      | _ => false
    else false

/-- The `Packet` enum.  `Message` carries the UTF-8 bytes of the Rust
`String` (well-formedness is carried separately, as the Rust type invariant
guarantees it). -/
inductive Packet where
  | Acknowledge (key : ℕ)
  | Message (data : List ℕ)
  | Leave
deriving DecidableEq, Repr

/-- `Packet::discriminant`. -/
def Packet.discriminant : Packet → ℕ
  | .Acknowledge _ => 0
  | .Message _ => 1
  | .Leave => 2

/-- `Packet::serialize`: the discriminant byte, then the kind-specific
payload (128-byte key dump, or length field plus text bytes, or nothing). -/
def Packet.serialize (p : Packet) : List ℕ :=
  p.discriminant ::
    (match p with
     | .Acknowledge key => key_to_bytes key
     | .Message data => toLEBytes USIZE_LEN data.length ++ data
     | .Leave => [])

/-- `Packet::try_deserialize` on the currently buffered bytes: one
discriminant byte, then the payload the discriminant implies; `none` when
not enough bytes are available, the discriminant is unknown, or the message
payload is not valid UTF-8.  On success it returns the packet together with
the `usize` count the Rust function returns. -/
def Packet.try_deserialize (input : List ℕ) : Option (Packet × ℕ) :=
  match input with
  | [] => none
  | d :: rest =>
    if d = 0 then
      if rest.length < 128 then none
      else some (.Acknowledge (fromLEBytes (rest.take 128)), 128)
    else if d = 1 then
      if rest.length < USIZE_LEN then none
      else if (rest.drop USIZE_LEN).length < fromLEBytes (rest.take USIZE_LEN) then none
      else if validUtf8 ((rest.drop USIZE_LEN).take (fromLEBytes (rest.take USIZE_LEN)))
      then some (.Message ((rest.drop USIZE_LEN).take (fromLEBytes (rest.take USIZE_LEN))),
          USIZE_LEN + fromLEBytes (rest.take USIZE_LEN))
      else none
    else if d = 2 then some (.Leave, 0)
    else none

/-! ### Codec lemmas -/

theorem toLEBytes_length : ∀ n v, (toLEBytes n v).length = n := by
  intro n
  induction n with
  | zero => intro v; rfl
  | succ n ih => intro v; simp [toLEBytes, ih]

theorem fromLEBytes_toLEBytes : ∀ n v, fromLEBytes (toLEBytes n v) = v % 256 ^ n := by
  intro n
  induction n with
  | zero => intro v; simp [toLEBytes, fromLEBytes, Nat.mod_one]
  | succ n ih =>
    intro v
    rw [toLEBytes, fromLEBytes, ih, pow_succ']
    have hx := Nat.div_add_mod (v % (256 * 256 ^ n)) 256
    rw [Nat.mod_mul_right_div_self, Nat.mod_mod_of_dvd _ ⟨256 ^ n, rfl⟩] at hx
    omega

theorem fromLEBytes_toLEBytes_of_lt {n v : ℕ} (h : v < 256 ^ n) :
    fromLEBytes (toLEBytes n v) = v := by
  rw [fromLEBytes_toLEBytes, Nat.mod_eq_of_lt h]

/-- Well-formedness invariant a Rust `Packet` value carries by construction:
the key is a `U1024` and the message holds the bytes of a `String`. -/
def Packet.wellFormed : Packet → Prop
  | .Acknowledge key => key < 2 ^ 1024
  | .Message data => validUtf8 data = true ∧ data.length < 2 ^ 64
  | .Leave => True

/-- Payload byte count of a packet: the `usize` that `try_deserialize`
reports on success, one less than the full serialized length. -/
def Packet.payloadSize : Packet → ℕ
  | .Acknowledge _ => 128
  | .Message data => USIZE_LEN + data.length
  | .Leave => 0

/-- C5: framing round-trip.  For every well-formed packet (any 1024-bit key,
any valid-UTF-8 message text of `usize` length, or Leave), feeding the exact
bytes produced by `serialize` to `try_deserialize` succeeds and returns a
packet equal to the original. -/
theorem serialize_round_trip (p : Packet) (hp : p.wellFormed) :
    Packet.try_deserialize p.serialize = some (p, p.payloadSize) := by
  cases p with
  | Acknowledge key =>
    have hlen : (toLEBytes 128 key).length = 128 := toLEBytes_length 128 key
    have hkey : key < 256 ^ 128 := by
      have h2 : (256 : ℕ) ^ 128 = 2 ^ 1024 := by norm_num
      rw [h2]
      exact hp
    have htake : (toLEBytes 128 key).take 128 = toLEBytes 128 key := by
      rw [← hlen]
      exact List.take_length _
    simp only [Packet.serialize, Packet.discriminant, key_to_bytes,
      Packet.try_deserialize, Packet.payloadSize, hlen, htake,
      fromLEBytes_toLEBytes_of_lt hkey]
    norm_num
  | Message data =>
    obtain ⟨hvalid, hlen64⟩ := hp
    have hfield : (toLEBytes USIZE_LEN data.length).length = USIZE_LEN :=
      toLEBytes_length _ _
    have htake : (toLEBytes USIZE_LEN data.length ++ data).take USIZE_LEN
        = toLEBytes USIZE_LEN data.length := List.take_left' hfield
    have hdrop : (toLEBytes USIZE_LEN data.length ++ data).drop USIZE_LEN
        = data := List.drop_left' hfield
    have hfrom : fromLEBytes (toLEBytes USIZE_LEN data.length) = data.length := by
      apply fromLEBytes_toLEBytes_of_lt
      have h2 : (256 : ℕ) ^ USIZE_LEN = 2 ^ 64 := by norm_num [USIZE_LEN]
      rw [h2]
      exact hlen64
    have hng : ¬ ((toLEBytes USIZE_LEN data.length ++ data).length < USIZE_LEN) := by
      rw [List.length_append, hfield]
      omega
    simp only [Packet.serialize, Packet.discriminant, Packet.try_deserialize,
      Packet.payloadSize, htake, hdrop, hfrom, hng, List.take_length, hvalid]
    norm_num
  | Leave => rfl

/-- Witness for C5 at the concrete two-byte message "hi". -/
theorem serialize_round_trip_witness :
    Packet.wellFormed (Packet.Message [104, 105]) ∧
      Packet.try_deserialize (Packet.Message [104, 105]).serialize
        = some (Packet.Message [104, 105], (Packet.Message [104, 105]).payloadSize) :=
  have hw : Packet.wellFormed (Packet.Message [104, 105]) := ⟨by decide, by decide⟩
  ⟨hw, serialize_round_trip (Packet.Message [104, 105]) hw⟩

/-- C3 counterexample: on the serialized Leave packet, `try_deserialize`
succeeds after consuming the whole one-byte packet but reports 0, not the
total number of bytes consumed (1 = discriminant). -/
theorem try_deserialize_count_counterexample :
    Packet.try_deserialize (Packet.serialize Packet.Leave)
        = some (Packet.Leave, 0) ∧
      (0 : ℕ) ≠ (Packet.serialize Packet.Leave).length := by
  exact ⟨rfl, by decide⟩

/-- C3 (amended): on success `try_deserialize` returns the payload byte
count — the bytes consumed minus the discriminant byte: 128 for Acknowledge,
length-field-width plus text length for Message, and 0 for Leave; the total
number of bytes consumed is the returned count plus one (helper shared by
the C3 and C7 theorems). -/
theorem try_deserialize_size_eq (input : List ℕ) (p : Packet) (n : ℕ)
    (h : Packet.try_deserialize input = some (p, n)) :
    n = p.payloadSize ∧ n + 1 = (Packet.serialize p).length := by
  match input with
  | [] => simp [Packet.try_deserialize] at h
  | d :: rest =>
    rw [Packet.try_deserialize] at h
    split_ifs at h with h0 hlen h1 hlen8 hbody hutf h2
    · simp only [Option.some.injEq, Prod.mk.injEq] at h
      obtain ⟨rfl, rfl⟩ := h
      exact ⟨rfl, by
        simp [Packet.serialize, Packet.payloadSize, key_to_bytes, toLEBytes_length]⟩
    · simp only [Option.some.injEq, Prod.mk.injEq] at h
      obtain ⟨rfl, rfl⟩ := h
      have hdata : ((rest.drop USIZE_LEN).take (fromLEBytes (rest.take USIZE_LEN))).length
          = fromLEBytes (rest.take USIZE_LEN) := by
        rw [List.length_take]
        omega
      exact ⟨by simp [Packet.payloadSize, hdata], by
        simp [Packet.serialize, Packet.payloadSize, toLEBytes_length,
          List.length_append, hdata]⟩
    · simp only [Option.some.injEq, Prod.mk.injEq] at h
      obtain ⟨rfl, rfl⟩ := h
      exact ⟨rfl, rfl⟩

/-- C3 (amended claim theorem): see `try_deserialize_size_eq`. -/
theorem try_deserialize_count (input : List ℕ) (p : Packet) (n : ℕ)
    (h : Packet.try_deserialize input = some (p, n)) :
    n = p.payloadSize ∧ n + 1 = (Packet.serialize p).length :=
  try_deserialize_size_eq input p n h

/-- Witness for the amended C3 at the one-byte Leave frame. -/
theorem try_deserialize_count_witness :
    Packet.try_deserialize [2] = some (Packet.Leave, 0) ∧
      ((0 : ℕ) = Packet.Leave.payloadSize ∧
        0 + 1 = (Packet.serialize Packet.Leave).length) :=
  ⟨rfl, try_deserialize_count [2] Packet.Leave 0 rfl⟩

/-! ## Session (src/session.rs) -/

/-- A `Session` minus the socket handle: both cipher directions and the
receive buffer.  The stream is modelled by passing newly arrived bytes into
`read` and returning the written bytes from `write`. -/
structure Session where
  rc4_out : Rc4
  rc4_in : Rc4
  buffer : List ℕ
deriving DecidableEq, Repr

/-- `Session::from_stream` modulo the socket: two fresh `Rc4::new` ciphers
and an empty buffer. -/
def Session.from_stream : Session :=
  ⟨Rc4.new, Rc4.new, []⟩

/-- `Session::read`: append the newly arrived bytes, return early if the
whole buffer is empty, decrypt only the appended span in place, attempt one
deserialization, and on success drain bytes `0 ..= size` (i.e. `size + 1`
bytes) from the front. -/
def Session.read (s : Session) (incoming : List ℕ) : Option Packet × Session :=
  let buffer1 := s.buffer ++ incoming
  if buffer1.isEmpty then (none, { s with buffer := buffer1 })
  else
    let processed := s.rc4_in.process incoming
    let buffer2 := s.buffer ++ processed.1
    match Packet.try_deserialize buffer2 with
    | none => (none, { s with buffer := buffer2, rc4_in := processed.2 })
    | some (p, size) =>
      (some p, { s with buffer := buffer2.drop (size + 1), rc4_in := processed.2 })

/-- `Session::write`: serialize onto the end of the buffer, encrypt the
appended span with the outbound cipher, send exactly that span, then drain
it from the buffer. -/
def Session.write (s : Session) (p : Packet) : Session × List ℕ :=
  let last := s.buffer.length
  let buffer1 := s.buffer ++ p.serialize
  let processed := s.rc4_out.process (buffer1.drop last)
  let buffer2 := buffer1.take last ++ processed.1
  let sent := buffer2.drop last
  ({ s with buffer := buffer2.take last, rc4_out := processed.2 }, sent)

/-- `Session::secure`: initialize both ciphers with the 128-byte key dump. -/
def Session.secure (s : Session) (key : ℕ) : Session :=
  { s with
    rc4_out := Rc4.initialize s.rc4_out (key_to_bytes key),
    rc4_in := Rc4.initialize s.rc4_in (key_to_bytes key) }

/-! ## Application (src/main.rs) -/

/-- The `Application` state: key-exchange instance, the at-most-one active
session, and the UI strings.  The listener socket is modelled by passing
accept outcomes into `try_accept`. -/
structure Application where
  yak : Yak
  session : Option Session
  recipient : String
  message_box : String
  output_label : String
deriving DecidableEq, Repr

/-- `Application::log`: prepend one formatted line to the output label. -/
def Application.log (app : Application) (name body : String) : Application :=
  { app with output_label := "[" ++ name ++ "] " ++ body ++ "\n" ++ app.output_label }

/-- `Application::set_session`: start a key-exchange session, write the
Acknowledge packet carrying the public value through the (fresh) session,
and store the session as active.  Returns the bytes put on the wire. -/
def Application.set_session (app : Application) (s : Session) (r : ℕ) :
    Application × List ℕ :=
  let started := app.yak.start_session r
  let written := s.write (.Acknowledge started.2)
  ({ app with yak := started.1, session := some written.1 }, written.2)

/-- `Application::try_accept`: return immediately when a session is already
active; otherwise handle the accept outcome (no pending connection, a
connection whose `from_stream` failed with an error message, or a fresh
session), logging and installing the session as the Rust code does. -/
def Application.try_accept (app : Application)
    (accepted : Option (String × Except String Session)) (r : ℕ) : Application :=
  if app.session.isSome then app
  else
    match accepted with
    | none => app
    | some (address, .ok s) =>
      ((app.log "net" ("receiving from " ++ address)).set_session s r).1
    | some (address, .error e) => app.log "net" (e ++ " from " ++ address)

/-! ### Session lemmas -/

/-- Helper shared by the C10 and C9 theorems: `write` sends exactly the
encryption of the serialized packet, leaves the buffer as it was, advances
only the outbound cipher. -/
theorem Session.write_eq (s : Session) (p : Packet) :
    s.write p = ({ s with rc4_out := (s.rc4_out.process p.serialize).2 },
      (s.rc4_out.process p.serialize).1) := by
  rw [Session.write]
  simp only [List.drop_left, List.take_left]

theorem replicate_getD (n k : ℕ) : (List.replicate n (0 : ℕ)).getD k 0 = 0 := by
  induction n generalizing k with
  | zero => rfl
  | succ n ih =>
    cases k with
    | zero => rfl
    | succ k =>
      rw [List.replicate_succ, List.getD_cons_succ]
      exact ih k

theorem set_replicate_zero (n k : ℕ) :
    (List.replicate n (0 : ℕ)).set k 0 = List.replicate n 0 := by
  induction n generalizing k with
  | zero => rfl
  | succ n ih =>
    cases k with
    | zero => rfl
    | succ k =>
      rw [List.replicate_succ, List.set_cons_succ, ih]

/-- One `next` step of a never-initialized cipher: the keystream byte is 0
and the state stays all-zero with `j = 0`. -/
theorem zeroState_next (i : ℕ) :
    (Rc4.mk (List.replicate 256 0) i 0).next
      = (0, Rc4.mk (List.replicate 256 0) ((i + 1) % 256) 0) := by
  simp only [Rc4.next, swapList, replicate_getD, set_replicate_zero,
    Nat.zero_add, Nat.add_zero, Nat.zero_mod]

theorem zeroState_process (data : List ℕ) :
    ∀ i, ((Rc4.mk (List.replicate 256 0) i 0).process data).1 = data := by
  induction data with
  | nil => intro i; rfl
  | cons b rest ih =>
    intro i
    rw [Rc4.process_cons, zeroState_next]
    simp only [Nat.xor_zero]
    exact congrArg (b :: ·) (ih ((i + 1) % 256))

theorem zeroState_keystream (n : ℕ) :
    ∀ i, (Rc4.mk (List.replicate 256 0) i 0).keystream n = List.replicate n 0 := by
  induction n with
  | zero => intro i; rfl
  | succ n ih =>
    intro i
    rw [Rc4.keystream, zeroState_next, List.replicate_succ]
    exact congrArg (0 :: ·) (ih ((i + 1) % 256))

/-- C4: cipher involution.  For every non-empty key and every message, two
`Rc4` instances independently initialized with the same key satisfy
`process (process message)` = `message`. -/
theorem rc4_involution (key msg : List ℕ) (_hkey : key ≠ []) :
    (( Rc4.initialize Rc4.new key).process
        ((( Rc4.initialize Rc4.new key).process msg).1)).1 = msg :=
  Rc4.process_process msg ( Rc4.initialize Rc4.new key)

/-- Witness for C4 with key `[0]` and message `[1, 2, 3]`. -/
theorem rc4_involution_witness :
    ([0] : List ℕ) ≠ [] ∧
      (( Rc4.initialize Rc4.new [0]).process
          ((( Rc4.initialize Rc4.new [0]).process [1, 2, 3]).1)).1 = [1, 2, 3] :=
  ⟨by decide, rc4_involution [0] [1, 2, 3] (by decide)⟩

/-- C10: `Session::write` sends exactly the encrypted serialization of the
packet, leaves the receive buffer exactly as it was before the call
(pending undeframed inbound bytes preserved), and leaves the inbound cipher
state unchanged; only the outbound cipher advances. -/
theorem session_write_frame_effect (s : Session) (p : Packet) :
    s.write p = ({ s with rc4_out := (s.rc4_out.process p.serialize).2 },
      (s.rc4_out.process p.serialize).1) :=
  Session.write_eq s p

/-- C9: before `initialize` is ever called, every keystream byte of
`Rc4::new` is 0, `process` is the identity on the data, and hence the
Acknowledge packet written by `set_session` on a fresh session goes out as
its exact plaintext serialization. -/
theorem rc4_new_transparent :
    (∀ n, Rc4.new.keystream n = List.replicate n 0) ∧
      (∀ data, (Rc4.new.process data).1 = data) ∧
      (∀ (app : Application) (r : ℕ),
        (app.set_session Session.from_stream r).2
          = Packet.serialize (.Acknowledge (app.yak.start_session r).2)) := by
  refine ⟨fun n => zeroState_keystream n 0, fun data => zeroState_process data 0, ?_⟩
  intro app r
  rw [Application.set_session]
  simp only [Session.write_eq]
  exact zeroState_process _ 0

/-- C7: `Session::read` decrypts exactly the newly appended bytes (the old
buffer prefix is never reprocessed); when no packet deserializes, the
buffer keeps the old bytes plus the newly decrypted ones; when a packet is
returned, exactly its serialized span — payload count plus one discriminant
byte — is dropped from the front of the buffer. -/
theorem session_read_spec (s : Session) (incoming : List ℕ) :
    (s.read incoming =
      match Packet.try_deserialize (s.buffer ++ (s.rc4_in.process incoming).1) with
      | none =>
        (none,
          { s with
            buffer := s.buffer ++ (s.rc4_in.process incoming).1
            rc4_in := (s.rc4_in.process incoming).2 })
      | some (p, size) =>
        (some p,
          { s with
            buffer := (s.buffer ++ (s.rc4_in.process incoming).1).drop (size + 1)
            rc4_in := (s.rc4_in.process incoming).2 })) ∧
    (∀ p size,
      Packet.try_deserialize (s.buffer ++ (s.rc4_in.process incoming).1) = some (p, size) →
        size + 1 = (Packet.serialize p).length) := by
  constructor
  · rw [Session.read]
    by_cases hemp : (s.buffer ++ incoming).isEmpty
    · rw [if_pos hemp]
      rw [List.isEmpty_iff, List.append_eq_nil] at hemp
      obtain ⟨hb, hi⟩ := hemp
      rw [hb, hi]
      rfl
    · rw [if_neg hemp]
  · intro p size h
    exact (try_deserialize_size_eq _ p size h).2

/-- Witness for C7: an empty buffer receiving the single byte of a Leave
frame (fresh inbound cipher, whose keystream is zero, leaves it unchanged),
which deserializes as Leave with payload count 0 and one consumed byte. -/
theorem session_read_spec_witness :
    Packet.try_deserialize
        (Session.from_stream.buffer ++ (Session.from_stream.rc4_in.process [2]).1)
      = some (Packet.Leave, 0) ∧ 0 + 1 = (Packet.serialize Packet.Leave).length :=
  ⟨by decide,
    (session_read_spec Session.from_stream [2]).2 Packet.Leave 0 (by decide)⟩

/-- C8: whenever a session is already active, `try_accept` returns the
application unchanged — no second session is created and the existing
session's state is untouched. -/
theorem try_accept_when_active (app : Application)
    (accepted : Option (String × Except String Session)) (r : ℕ)
    (h : app.session.isSome) :
    app.try_accept accepted r = app := by
  rw [Application.try_accept.eq_def, if_pos h]

/-- Witness for C8: a concrete application holding an active session. -/
theorem try_accept_when_active_witness :
    ((⟨Yak.new 0, some Session.from_stream, "", "", ""⟩ : Application).session.isSome
        = true) ∧
      Application.try_accept ⟨Yak.new 0, some Session.from_stream, "", "", ""⟩ none 0
        = ⟨Yak.new 0, some Session.from_stream, "", "", ""⟩ :=
  ⟨rfl, try_accept_when_active ⟨Yak.new 0, some Session.from_stream, "", "", ""⟩ none 0 rfl⟩

end SecureChat
